import Mathlib

set_option maxRecDepth 4000

namespace Crunchy

/-- Strings of the Go source are modelled as lists of characters. -/
abbrev Str := List Char

/-- Whitespace test matching Go's unicode.IsSpace on the code points this
tool meets (the ASCII space class plus NEL and NBSP, the two Latin-1
additions Go recognises). -/
def isSpace (c : Char) : Bool :=
  c = ' ' || c = '\t' || c = '\n' || c = '\x0b' || c = '\x0c' || c = '\r' ||
  c = '\u0085' || c = '\u00A0'

/-- Drop leading whitespace (the left half of Go strings.TrimSpace). -/
def trimLeftWhite : Str → Str
  | [] => []
  | c :: rest => if isSpace c then trimLeftWhite rest else c :: rest

/-- Go strings.TrimSpace: remove leading and trailing whitespace. -/
def trimSpace (s : Str) : Str :=
  (trimLeftWhite (trimLeftWhite s).reverse).reverse

/-- Go strings.Split with a single-character separator: cut at every
occurrence, keeping empty segments ("a\n\nb" gives ["a", "", "b"]). -/
def splitChar (sep : Char) : Str → List Str
  | [] => [[]]
  | c :: rest =>
    match splitChar sep rest with
    | [] => [[]]
    | h :: t => if c = sep then [] :: h :: t else (c :: h) :: t

/-- Cut a string at every whitespace character (first half of Go
strings.Fields). -/
def splitWhite : Str → List Str
  | [] => [[]]
  | c :: rest =>
    match splitWhite rest with
    | [] => [[]]
    | h :: t => if isSpace c then [] :: h :: t else (c :: h) :: t

/-- Go strings.Fields: the maximal runs of non-whitespace characters. -/
def fields (s : Str) : List Str := (splitWhite s).filter (fun t => !t.isEmpty)

/-- Locate the first occurrence of sep inside s: some (pre, post) means
s = pre ++ sep ++ post at the first occurrence; none means sep does not
occur. This is the scan underlying Go strings.Contains and strings.Split. -/
def breakSub (sep : Str) : Str → Option (Str × Str)
  | [] => if sep.isEmpty then some ([], []) else none
  | c :: rest =>
    if sep.isPrefixOf (c :: rest) then some ([], (c :: rest).drop sep.length)
    else
      match breakSub sep rest with
      | none => none
      | some (pre, post) => some (c :: pre, post)

/-- Go strings.Contains(s, sep). -/
def containsSub (sep s : Str) : Bool := (breakSub sep s).isSome

/-- Element number 1 of Go strings.Split(s, sep): the text between the
first occurrence of sep and the next one (or the end of s). It is some
exactly when sep occurs in s, i.e. when the split has at least two
elements. -/
def segAfterMarker (sep s : Str) : Option Str :=
  match breakSub sep s with
  | none => none
  | some (_, post) =>
    match breakSub sep post with
    | none => some post
    | some (pre2, _) => some pre2

/-- Everything after the first occurrence of sep, to the end of s (empty
when sep does not occur). Used to state the claim about the "remainder of
the line after the marker". -/
def remAfter (sep s : Str) : Str :=
  match breakSub sep s with
  | none => []
  | some (_, post) => post

/-- The digest announcement marker scanned for in the push transcript
(src/main.go parseDigest). -/
def digestMarker : Str := "digest:".data

/-- Line scan of src/main.go parseDigest (lines 201-220): trim the line;
if it contains the marker, split on the marker and take element 1 (the
len(parts) < 2 continue of the source is the none branch here, unreachable
once the line contains the marker), trim it and return its first field; a
marker line with no field after it is skipped (the source continues the
loop); running out of lines yields the not-found error. -/
def parseDigestLines : List Str → Except Str Str
  | [] => .error "digest not found in output".data
  | line :: rest =>
    let l := trimSpace line
    if containsSub digestMarker l then
      match segAfterMarker digestMarker l with
      | none => parseDigestLines rest
      | some seg =>
        match fields (trimSpace seg) with
        | [] => parseDigestLines rest
        | f :: _ => .ok f
    else parseDigestLines rest

/-- Go parseDigest (src/main.go lines 201-220): split the captured push
transcript into lines and scan them in order. -/
def parseDigest (output : Str) : Except Str Str :=
  parseDigestLines (splitChar '\n' output)

/-- Per-line extraction result, used to characterise parseDigest: the
first field of split element 1 of the trimmed line, when the line carries
the marker and such a field exists. -/
def lineTok (line : Str) : Option Str :=
  let l := trimSpace line
  if containsSub digestMarker l then
    match segAfterMarker digestMarker l with
    | none => none
    | some seg => (fields (trimSpace seg)).head?
  else none

/-- Modelled from the claim wording of C1: the first line containing the
marker is authoritative — the result is the first whitespace-delimited
token of the trimmed remainder of that line after the marker — and with no
marker line extraction fails with the not-found error. -/
def claimC1At (output : Str) : Prop :=
  match ((splitChar '\n' output).map trimSpace).find?
      (fun l => containsSub digestMarker l) with
  | none => parseDigest output = .error "digest not found in output".data
  | some line =>
      ∃ tok rest, fields (trimSpace (remAfter digestMarker line)) = tok :: rest
        ∧ parseDigest output = .ok tok

/-- Shared Go loop pattern of splitServices (src/main.go lines 108-117)
and listRevisions (lines 308-315): trim each entry and keep the non-empty
ones, in order. -/
def keepNonEmptyTrimmed : List Str → List Str
  | [] => []
  | p :: ps =>
    let t := trimSpace p
    if t.isEmpty then keepNonEmptyTrimmed ps else t :: keepNonEmptyTrimmed ps

/-- Go splitServices (src/main.go lines 108-117): split the raw --svc
value on semicolons, trim each part, drop the empty ones. -/
def splitServices (raw : Str) : List Str :=
  keepNonEmptyTrimmed (splitChar ';' raw)

/-- Lowercasing as applied to --lang and --region values (the ASCII range
of Go strings.ToLower; every accepted value is ASCII). -/
def toLowerStr (s : Str) : Str := s.map Char.toLower

/-- Go inferRegistryHost (src/main.go lines 119-132). -/
def inferRegistryHost (region : Str) : Str :=
  let r := toLowerStr (trimSpace region)
  if "asia".data.isPrefixOf r then "asia.gcr.io".data
  else if "europe".data.isPrefixOf r || "eu".data.isPrefixOf r then "eu.gcr.io".data
  else if "us".data.isPrefixOf r then "us.gcr.io".data
  else "gcr.io".data

/-- One record of the gcloud list-tags JSON array (src/main.go
cleanupOldImages): only the digest field is consumed. -/
structure Tag where
  digest : Str
deriving DecidableEq, Repr

/-- The release configuration built by parseConfig (src/main.go struct
config). The workdir and start-timestamp fields are omitted: they only
feed process working directories and log lines, which the claims do not
touch. The retention counts are Nat because parseConfig validates them
to be at least 1 before the orchestration starts. -/
structure Config where
  image : Str
  beta : Bool
  services : List Str
  keepImgs : Nat
  keepRevs : Nat
  project : Str
  region : Str
  registryHost : Str

/-- The flag values handed to parseConfig (src/main.go lines 44-106),
with os.Getwd modelled as an always-successful input and the start
timestamp dropped. The retention counts are Int exactly as Go's int
flags, so the < 1 validation is meaningful. -/
structure RawFlags where
  image : Str
  svc : Str
  beta : Bool
  keepImgs : Int
  keepRevs : Int
  project : Str
  region : Str
  registryHost : Str

/-- Go parseConfig (src/main.go lines 44-106): the validation chain in
source order, then the registry-host default. -/
def parseConfigModel (f : RawFlags) : Except Str Config :=
  if f.image.isEmpty then .error "--image is required".data
  else if f.svc.isEmpty then .error "--svc is required".data
  else
    let services := splitServices f.svc
    if services.isEmpty then .error "no services provided via --svc".data
    else if f.keepImgs < 1 then .error "--keep-images must be >= 1".data
    else if f.keepRevs < 1 then .error "--keep-revisions must be >= 1".data
    else if f.project.isEmpty then .error "--project is required".data
    else if f.region.isEmpty then .error "--region is required".data
    else
      let host := trimSpace f.registryHost
      let host := if host.isEmpty then inferRegistryHost f.region else host
      .ok { image := f.image, beta := f.beta, services := services,
            keepImgs := f.keepImgs.toNat, keepRevs := f.keepRevs.toNat,
            project := f.project, region := f.region, registryHost := host }

/-- The external commands the orchestrator can issue, in the claims'
vocabulary. Flags that are constant in the source (platform, region,
project, -q, ...) are omitted; the data each claim inspects (tags, image
references, service and revision names) is kept. -/
inductive Cmd where
  | buildTS
  | dockerBuild (tag : Str)
  | dockerPush (tag : Str)
  | listRevisions (service : Str)
  | deploy (service : Str) (image : Str)
  | updateTraffic (service : Str)
  | deleteRevision (revision : Str)
  | listTags (repo : Str)
  | deleteImage (ref : Str)
deriving DecidableEq, Repr

/-- Whether a command belongs to the image-cleanup pass. -/
def Cmd.isCleanup : Cmd → Bool
  | .listTags _ => true
  | .deleteImage _ => true
  | _ => false

/-- The external world the orchestrator talks to: the exit outcome of
every process invocation (none = exit 0, some e = the exit error text),
the captured outputs, and the result of the external JSON decoder on the
captured list-tags output (encoding/json is outside the repository). -/
structure Env where
  buildRes : Option Str
  dockerBuildRes : Option Str
  pushRes : Option Str
  pushOutput : Str
  revListRes : Str → Option Str
  revListOutput : Str → Str
  deployRes : Str → Option Str
  trafficRes : Str → Option Str
  deleteRevRes : Str → Option Str
  listTagsRes : Option Str
  listTagsOutput : Str
  tagsParseRes : Except Str (List Tag)
  deleteImageRes : Str → Option Str

/-- The image repository path registryHost/project/image, as assembled by
run and cleanupOldImages (src/main.go lines 140 and 319). -/
def repoOf (cfg : Config) : Str :=
  cfg.registryHost ++ "/".data ++ cfg.project ++ "/".data ++ cfg.image

/-- The tag the containerize stage builds and pushes (src/main.go lines
141-144): the bare repository path on a release run, :dev on a beta run. -/
def imageTagOf (cfg : Config) : Str :=
  if cfg.beta then repoOf cfg ++ ":dev".data else repoOf cfg

/-- Go listRevisions output parsing (src/main.go lines 308-315): trim the
captured output, split into lines, keep the trimmed non-empty ones. -/
def parseRevisionList (output : Str) : List Str :=
  keepNonEmptyTrimmed (splitChar '\n' (trimSpace output))

/-- The pre-deploy revision snapshot a service task works with. -/
def revSnapshot (env : Env) (service : Str) : List Str :=
  parseRevisionList (env.revListOutput service)

/-- Go listRevisions (src/main.go lines 298-316): a capture invocation,
then the text-table parse. -/
def listRevisionsModel (env : Env) (service : Str) : Except Str (List Str) :=
  match env.revListRes service with
  | some e => .error e
  | none => .ok (revSnapshot env service)

/-- The retention rule written at both use sites (src/main.go
deployService lines 280-284 and cleanupOldImages lines 336-340): if the
list has at most keep entries nothing is selected, otherwise everything
strictly after index keep is selected, in order. -/
def pruneTail {α : Type} (L : List α) (keep : Nat) : List α :=
  if L.length ≤ keep then [] else L.drop keep

/-- The revision-deletion loop of deployService (src/main.go lines
284-293): delete each selected revision in order, stopping at the first
failure with its wrapped error. -/
def deleteRevLoop (env : Env) : List Str → List Cmd × Option Str
  | [] => ([], none)
  | r :: rest =>
    match env.deleteRevRes r with
    | some e => ([Cmd.deleteRevision r],
        some ("delete revision ".data ++ r ++ ": ".data ++ e))
    | none =>
      let dl := deleteRevLoop env rest
      (Cmd.deleteRevision r :: dl.1, dl.2)

/-- Go deployService (src/main.go lines 255-296): list the revisions
(pre-deploy snapshot), deploy the image, migrate traffic, then delete the
revisions beyond the retention threshold; the first failing stage aborts
the task with a service-tagged error (revision deletions are tagged with
the revision name). -/
def deployServiceModel (cfg : Config) (env : Env) (service image : Str) :
    List Cmd × Option Str :=
  match listRevisionsModel env service with
  | .error e => ([Cmd.listRevisions service],
      some ("list revisions for ".data ++ service ++ ": ".data ++ e))
  | .ok revisions =>
    match env.deployRes service with
    | some e => ([Cmd.listRevisions service, Cmd.deploy service image],
        some ("deploy service ".data ++ service ++ ": ".data ++ e))
    | none =>
      match env.trafficRes service with
      | some e => ([Cmd.listRevisions service, Cmd.deploy service image,
            Cmd.updateTraffic service],
          some ("update traffic for ".data ++ service ++ ": ".data ++ e))
      | none =>
        let dl := deleteRevLoop env (pruneTail revisions cfg.keepRevs)
        (Cmd.listRevisions service :: Cmd.deploy service image ::
           Cmd.updateTraffic service :: dl.1,
         dl.2)

/-- Go deployServices (src/main.go lines 222-253): one task per service,
every task joined, every task error collected and newline-joined. The
concurrent fan-out is sequenced here in service order: the per-task
command order and the set of collected errors are schedule-independent,
and no claim requires a cross-service order. -/
def deployServicesModel (cfg : Config) (env : Env) (image : Str) :
    List Cmd × Option Str :=
  let results := cfg.services.map (fun s => deployServiceModel cfg env s image)
  let errs := results.filterMap Prod.snd
  ((results.map Prod.fst).flatten,
   if errs.isEmpty then none else some (List.intercalate "\n".data errs))

/-- The imageWithDigest reference of cleanupOldImages (src/main.go line
344): repo@digest. -/
def imgRef (repo : Str) (t : Tag) : Str := repo ++ "@".data ++ t.digest

/-- The deletion command the cleanup loop issues for a record: none when
the record's digest is empty (the record is skipped). -/
def imgDeleteCmd (repo : Str) (t : Tag) : Option Cmd :=
  if t.digest.isEmpty then none else some (Cmd.deleteImage (imgRef repo t))

/-- The image-deletion loop of cleanupOldImages (src/main.go lines
340-354): skip records with an empty digest, delete repo@digest for the
others in order, stopping at the first failure with its wrapped error. -/
def deleteImagesLoop (env : Env) (repo : Str) : List Tag → List Cmd × Option Str
  | [] => ([], none)
  | t :: rest =>
    if t.digest.isEmpty then deleteImagesLoop env repo rest
    else
      match env.deleteImageRes (imgRef repo t) with
      | some e => ([Cmd.deleteImage (imgRef repo t)],
          some ("delete image ".data ++ imgRef repo t ++ ": ".data ++ e))
      | none =>
        let dl := deleteImagesLoop env repo rest
        (Cmd.deleteImage (imgRef repo t) :: dl.1, dl.2)

/-- Go cleanupOldImages (src/main.go lines 318-357): list the repository
tags, decode the JSON, and delete every record beyond the retention
threshold that has a non-empty digest. -/
def cleanupOldImagesModel (cfg : Config) (env : Env) : List Cmd × Option Str :=
  match env.listTagsRes with
  | some e => ([Cmd.listTags (repoOf cfg)],
      some ("list image tags: ".data ++ e ++ "\n".data ++ env.listTagsOutput))
  | none =>
    match env.tagsParseRes with
    | .error e => ([Cmd.listTags (repoOf cfg)],
        some ("parse image tags json: ".data ++ e))
    | .ok tags =>
      let dl := deleteImagesLoop env (repoOf cfg) (pruneTail tags cfg.keepImgs)
      (Cmd.listTags (repoOf cfg) :: dl.1, dl.2)

/-- The fullImagePath of run (src/main.go line 162): the immutable
repo@digest reference every deploy uses. -/
def fullImageOf (cfg : Config) (digest : Str) : Str :=
  repoOf cfg ++ "@".data ++ digest

/-- Go run (src/main.go lines 134-177): build, containerize, publish,
extract the digest, fan out the deploys, then (non-beta only) clean up old
image digests. Stage errors carry the source's wrapping. -/
def runModel (cfg : Config) (env : Env) : List Cmd × Option Str :=
  match env.buildRes with
  | some e => ([Cmd.buildTS], some ("build project: ".data ++ e))
  | none =>
    match env.dockerBuildRes with
    | some e => ([Cmd.buildTS, Cmd.dockerBuild (imageTagOf cfg)],
        some ("docker build: ".data ++ e))
    | none =>
      match env.pushRes with
      | some e => ([Cmd.buildTS, Cmd.dockerBuild (imageTagOf cfg),
            Cmd.dockerPush (imageTagOf cfg)],
          some ("docker push: ".data ++ e ++ "\n".data ++ env.pushOutput))
      | none =>
        match parseDigest env.pushOutput with
        | .error e => ([Cmd.buildTS, Cmd.dockerBuild (imageTagOf cfg),
              Cmd.dockerPush (imageTagOf cfg)],
            some ("parse digest: ".data ++ e ++ "\n".data ++ env.pushOutput))
        | .ok digest =>
          let d := deployServicesModel cfg env (fullImageOf cfg digest)
          let trace := Cmd.buildTS :: Cmd.dockerBuild (imageTagOf cfg) ::
            Cmd.dockerPush (imageTagOf cfg) :: d.1
          match d.2 with
          | some e => (trace, some e)
          | none =>
            if cfg.beta then (trace, none)
            else
              let c := cleanupOldImagesModel cfg env
              (trace ++ c.1, c.2)

/-- The build-tool enum of the selector source (type language). -/
inductive Language where
  | pnpm
  | npm
  | yarn
  | go
  | rust
deriving DecidableEq, Repr

/-- The workspace as the selector sees it: which marker file names exist
at the workspace root (fileExists of the joined path). -/
structure Workspace where
  has : Str → Bool

/-- Go detectLanguage (src/src/index.ts document 2, lines 142-167): probe
the marker files in the fixed priority order and return the first match;
fall back to pnpm when only package.json is present, and again to pnpm
when nothing matches. The error value is never used. -/
def detectLanguage (ws : Workspace) : Except Str Language :=
  if ws.has "pnpm-lock.yaml".data then .ok .pnpm
  else if ws.has "yarn.lock".data then .ok .yarn
  else if ws.has "package-lock.json".data then .ok .npm
  else if ws.has "go.mod".data then .ok .go
  else if ws.has "Cargo.toml".data then .ok .rust
  else if ws.has "package.json".data then .ok .pnpm
  else .ok .pnpm

/-- Go determineLanguage (src/src/index.ts document 2, lines 120-140):
lowercase and trim the requested value; an empty result means probe the
workspace; otherwise map through the alias table or fail. -/
def determineLanguage (ws : Workspace) (requested : Str) : Except Str Language :=
  let r := trimSpace (toLowerStr requested)
  if r.isEmpty then detectLanguage ws
  else if r = "npm".data ∨ r = "node".data ∨ r = "ts".data ∨ r = "typescript".data
      ∨ r = "javascript".data ∨ r = "nodejs".data then .ok .npm
  else if r = "pnpm".data then .ok .pnpm
  else if r = "yarn".data then .ok .yarn
  else if r = "go".data ∨ r = "golang".data then .ok .go
  else if r = "rust".data ∨ r = "cargo".data then .ok .rust
  else .error ("unsupported --lang value \"".data ++ r ++ "\"".data)

/-- The accepted spellings of the alias table in determineLanguage. -/
def aliasKeys : List Str :=
  ["npm".data, "node".data, "ts".data, "typescript".data, "javascript".data,
   "nodejs".data, "pnpm".data, "yarn".data, "go".data, "golang".data,
   "rust".data, "cargo".data]

/-- Modelled from the claim wording of C9, restricted to the clause under
test: a non-empty explicit choice whose normalization is outside the alias
table fails with the unsupported-build-tool error. -/
def claimC9At (ws : Workspace) (requested : Str) : Prop :=
  requested ≠ [] → trimSpace (toLowerStr requested) ∉ aliasKeys →
    ∃ m, determineLanguage ws requested = .error m

/-- Modelled from the claim wording of C3, restricted to the clause under
test: every error a per-service task contributes contains that service's
name. -/
def claimC3At (cfg : Config) (env : Env) (image : Str) : Prop :=
  ∀ s ∈ cfg.services, ∀ e, (deployServiceModel cfg env s image).2 = some e →
    containsSub s e = true

/-- The revision names deleted along a command trace, in order. -/
def deletedRevCmds (trace : List Cmd) : List Str :=
  trace.filterMap (fun c => match c with
    | .deleteRevision r => some r
    | _ => none)

/-- The image references deleted along a command trace, in order. -/
def deletedImageRefs (trace : List Cmd) : List Str :=
  trace.filterMap (fun c => match c with
    | .deleteImage ref => some ref
    | _ => none)

/-- A workspace with no marker file at all. -/
def exWorkspace : Workspace := { has := fun _ => false }

/-- A workspace holding both a pnpm lockfile and a bare manifest. -/
def exWorkspaceBoth : Workspace :=
  { has := fun f => f = "pnpm-lock.yaml".data || f = "package.json".data }

/-- A release configuration with one service and retention counts of 1. -/
def exCfg : Config :=
  { image := "app".data, beta := false, services := ["api".data],
    keepImgs := 1, keepRevs := 1, project := "proj".data,
    region := "asia-northeast3".data, registryHost := "asia.gcr.io".data }

/-- The same configuration as a beta run. -/
def exCfgBeta : Config := { exCfg with beta := true }

/-- An environment in which every external command succeeds. -/
def exEnvOk : Env :=
  { buildRes := none, dockerBuildRes := none, pushRes := none,
    pushOutput := "latest: digest: sha256:abc123 size: 528\n".data,
    revListRes := fun _ => none,
    revListOutput := fun _ => "r3\nr2\nr1\n".data,
    deployRes := fun _ => none, trafficRes := fun _ => none,
    deleteRevRes := fun _ => none,
    listTagsRes := none, listTagsOutput := "[]".data,
    tagsParseRes := .ok [⟨"sha256:d1".data⟩, ⟨"sha256:d2".data⟩, ⟨[]⟩],
    deleteImageRes := fun _ => none }

/-- The successful environment, except that the project build fails. -/
def exEnvBuildFail : Env := { exEnvOk with buildRes := some "boom".data }

/-- The successful environment, except that deleting revision r1 fails;
the revision names do not mention the service name api. -/
def exEnvRevDeleteFail : Env :=
  { exEnvOk with
    revListOutput := fun _ => "r2\nr1".data,
    deleteRevRes := fun r => if r = "r1".data then some "boom".data else none }

/-- The successful environment, except that deleting the second image
digest fails. -/
def exEnvImgDeleteFail : Env :=
  { exEnvOk with
    deleteImageRes := fun ref =>
      if ref = "asia.gcr.io/proj/app@sha256:d2".data then some "boom".data
      else none }

/-- Flag values whose --svc value trims away to nothing. -/
def exFlagsBlankSvc : RawFlags :=
  { image := "app".data, svc := " ; ; ".data, beta := false,
    keepImgs := 10, keepRevs := 10, project := "proj".data,
    region := "asia-northeast3".data, registryHost := [] }

theorem parseDigestLines_eq (lines : List Str) :
    parseDigestLines lines =
      match lines.findSome? lineTok with
      | some tok => .ok tok
      | none => .error "digest not found in output".data := by
  induction lines with
  | nil => rfl
  | cons line rest ih =>
    rw [List.findSome?_cons]
    cases h1 : containsSub digestMarker (trimSpace line) with
    | false =>
      have hl : lineTok line = none := by simp [lineTok, h1]
      have hp : parseDigestLines (line :: rest) = parseDigestLines rest := by
        simp [parseDigestLines, h1]
      rw [hp, hl, ih]
    | true =>
      cases h2 : segAfterMarker digestMarker (trimSpace line) with
      | none =>
        have hl : lineTok line = none := by simp [lineTok, h1, h2]
        have hp : parseDigestLines (line :: rest) = parseDigestLines rest := by
          simp [parseDigestLines, h1, h2]
        rw [hp, hl, ih]
      | some seg =>
        cases h3 : fields (trimSpace seg) with
        | nil =>
          have hl : lineTok line = none := by simp [lineTok, h1, h2, h3]
          have hp : parseDigestLines (line :: rest) = parseDigestLines rest := by
            simp [parseDigestLines, h1, h2, h3]
          rw [hp, hl, ih]
        | cons f fs =>
          have hl : lineTok line = some f := by simp [lineTok, h1, h2, h3]
          have hp : parseDigestLines (line :: rest) = .ok f := by
            simp [parseDigestLines, h1, h2, h3]
          rw [hp, hl]

/-- C1 fails as stated: in this transcript the first line containing the
marker is "digest:", and the trimmed remainder of that line after the
marker has no whitespace-delimited token at all, yet extraction succeeds
with a digest taken from a later line — the first marker line is not
authoritative. -/
theorem C1_counterexample :
    ¬ claimC1At ("digest:\ndigest: sha256:abc".data)
    ∧ parseDigest ("digest:\ndigest: sha256:abc".data) = .ok "sha256:abc".data := by
  constructor
  · intro h
    have h' : ∃ tok rest,
        fields (trimSpace (remAfter digestMarker ("digest:".data))) = tok :: rest
        ∧ parseDigest ("digest:\ndigest: sha256:abc".data) = .ok tok := h
    obtain ⟨tok, rest, hf, _⟩ := h'
    have hz : fields (trimSpace (remAfter digestMarker ("digest:".data))) = [] := by
      decide
    rw [hz] at hf
    exact List.noConfusion hf
  · rfl

/-- C1 (amended): the extractor scans lines in order and the first line
that yields a token is authoritative — a line yields a token when, after
trimming, it contains the marker and the split segment between the first
marker occurrence and the next one (or the end of the line) has a
whitespace-delimited token; marker lines yielding no token are skipped.
If no line yields a token, and in particular if no line contains the
marker, extraction fails with the digest-not-found error; on the example
transcript it returns sha256:abc123. -/
theorem C1_amended :
    (∀ output tok, (splitChar '\n' output).findSome? lineTok = some tok →
        parseDigest output = .ok tok)
  ∧ (∀ output, (splitChar '\n' output).findSome? lineTok = none →
        parseDigest output = .error "digest not found in output".data)
  ∧ (∀ output, (∀ line ∈ splitChar '\n' output,
        containsSub digestMarker (trimSpace line) = false) →
        parseDigest output = .error "digest not found in output".data)
  ∧ parseDigest ("5d3a: Pushed\nlatest: digest: sha256:abc123 size: 528\n".data)
      = .ok "sha256:abc123".data := by
  refine ⟨?_, ?_, ?_, by rfl⟩
  · intro output tok h
    rw [parseDigest, parseDigestLines_eq, h]
  · intro output h
    rw [parseDigest, parseDigestLines_eq, h]
  · intro output h
    rw [parseDigest, parseDigestLines_eq, List.findSome?_eq_none_iff.mpr ?_]
    intro line hline
    simp [lineTok, h line hline]

theorem C1_amended_witness :
    parseDigest ("x digest: sha256:q\n".data) = .ok "sha256:q".data
    ∧ parseDigest ("no marker here\n".data)
        = .error "digest not found in output".data :=
  ⟨C1_amended.1 ("x digest: sha256:q\n".data) ("sha256:q".data) (by decide),
   C1_amended.2.1 ("no marker here\n".data) (by decide)⟩

theorem deleteRevLoop_shape (env : Env) (rs : List Str) {c : Cmd}
    (hc : c ∈ (deleteRevLoop env rs).1) : ∃ r ∈ rs, c = Cmd.deleteRevision r := by
  induction rs with
  | nil => simp [deleteRevLoop] at hc
  | cons r rest ih =>
    cases h : env.deleteRevRes r with
    | some e =>
      simp [deleteRevLoop, h] at hc
      exact ⟨r, by simp, hc⟩
    | none =>
      simp only [deleteRevLoop, h, List.mem_cons] at hc
      rcases hc with hc | hc
      · exact ⟨r, by simp, hc⟩
      · obtain ⟨r', hr', hcr⟩ := ih hc
        exact ⟨r', by simp [hr'], hcr⟩

theorem deleteRevLoop_ok (env : Env) (rs : List Str)
    (h : (deleteRevLoop env rs).2 = none) :
    (deleteRevLoop env rs).1 = rs.map Cmd.deleteRevision := by
  induction rs with
  | nil => rfl
  | cons r rest ih =>
    cases hr : env.deleteRevRes r with
    | some e => simp [deleteRevLoop, hr] at h
    | none =>
      simp only [deleteRevLoop, hr] at h ⊢
      simp [ih h]

theorem deleteRevLoop_err (env : Env) (rs : List Str) (e : Str)
    (h : (deleteRevLoop env rs).2 = some e) :
    ∃ r ∈ rs, ∃ u, env.deleteRevRes r = some u
      ∧ e = "delete revision ".data ++ r ++ ": ".data ++ u := by
  induction rs with
  | nil => simp [deleteRevLoop] at h
  | cons r rest ih =>
    cases hr : env.deleteRevRes r with
    | some u =>
      simp [deleteRevLoop, hr] at h
      exact ⟨r, by simp, u, hr, by simpa using h.symm⟩
    | none =>
      simp only [deleteRevLoop, hr] at h
      obtain ⟨r', hr', u, hu, he⟩ := ih h
      exact ⟨r', by simp [hr'], u, hu, he⟩

theorem deployService_ok_trace (cfg : Config) (env : Env) (service image : Str)
    (h : (deployServiceModel cfg env service image).2 = none) :
    (deployServiceModel cfg env service image).1
      = Cmd.listRevisions service :: Cmd.deploy service image ::
        Cmd.updateTraffic service ::
        (pruneTail (revSnapshot env service) cfg.keepRevs).map Cmd.deleteRevision := by
  cases hl : env.revListRes service with
  | some e => simp [deployServiceModel, listRevisionsModel, hl] at h
  | none =>
    cases hd : env.deployRes service with
    | some e => simp [deployServiceModel, listRevisionsModel, hl, hd] at h
    | none =>
      cases ht : env.trafficRes service with
      | some e => simp [deployServiceModel, listRevisionsModel, hl, hd, ht] at h
      | none =>
        simp only [deployServiceModel, listRevisionsModel, hl, hd, ht] at h ⊢
        rw [deleteRevLoop_ok env _ h]

theorem deployService_trace_shape (cfg : Config) (env : Env) (service image : Str)
    {c : Cmd} (hc : c ∈ (deployServiceModel cfg env service image).1) :
    c = Cmd.listRevisions service ∨ c = Cmd.deploy service image
    ∨ c = Cmd.updateTraffic service
    ∨ ∃ r ∈ pruneTail (revSnapshot env service) cfg.keepRevs,
        c = Cmd.deleteRevision r := by
  cases hl : env.revListRes service with
  | some e =>
    simp [deployServiceModel, listRevisionsModel, hl] at hc
    exact Or.inl hc
  | none =>
    cases hd : env.deployRes service with
    | some e =>
      simp [deployServiceModel, listRevisionsModel, hl, hd] at hc
      rcases hc with hc | hc
      · exact Or.inl hc
      · exact Or.inr (Or.inl hc)
    | none =>
      cases ht : env.trafficRes service with
      | some e =>
        simp [deployServiceModel, listRevisionsModel, hl, hd, ht] at hc
        rcases hc with hc | hc | hc
        · exact Or.inl hc
        · exact Or.inr (Or.inl hc)
        · exact Or.inr (Or.inr (Or.inl hc))
      | none =>
        simp only [deployServiceModel, listRevisionsModel, hl, hd, ht,
          List.mem_cons] at hc
        rcases hc with hc | hc | hc | hc
        · exact Or.inl hc
        · exact Or.inr (Or.inl hc)
        · exact Or.inr (Or.inr (Or.inl hc))
        · exact Or.inr (Or.inr (Or.inr (deleteRevLoop_shape env _ hc)))

theorem deployService_err_shape (cfg : Config) (env : Env) (service image e : Str)
    (h : (deployServiceModel cfg env service image).2 = some e) :
    (∃ u, e = "list revisions for ".data ++ service ++ ": ".data ++ u)
    ∨ (∃ u, e = "deploy service ".data ++ service ++ ": ".data ++ u)
    ∨ (∃ u, e = "update traffic for ".data ++ service ++ ": ".data ++ u)
    ∨ (∃ r ∈ pruneTail (revSnapshot env service) cfg.keepRevs, ∃ u,
        e = "delete revision ".data ++ r ++ ": ".data ++ u) := by
  cases hl : env.revListRes service with
  | some u =>
    simp [deployServiceModel, listRevisionsModel, hl] at h
    exact Or.inl ⟨u, by simpa using h.symm⟩
  | none =>
    cases hd : env.deployRes service with
    | some u =>
      simp [deployServiceModel, listRevisionsModel, hl, hd] at h
      exact Or.inr (Or.inl ⟨u, by simpa using h.symm⟩)
    | none =>
      cases ht : env.trafficRes service with
      | some u =>
        simp [deployServiceModel, listRevisionsModel, hl, hd, ht] at h
        exact Or.inr (Or.inr (Or.inl ⟨u, by simpa using h.symm⟩))
      | none =>
        simp only [deployServiceModel, listRevisionsModel, hl, hd, ht] at h
        obtain ⟨r, hr, u, _, he⟩ := deleteRevLoop_err env _ e h
        exact Or.inr (Or.inr (Or.inr ⟨r, hr, u, he⟩))

theorem isPrefixOf_append_self (pat post : Str) :
    pat.isPrefixOf (pat ++ post) = true :=
  List.isPrefixOf_iff_prefix.mpr (List.prefix_append pat post)

theorem containsSub_nil (s : Str) : containsSub [] s = true := by
  cases s with
  | nil => rfl
  | cons c rest => simp [containsSub, breakSub, List.isPrefixOf]

theorem containsSub_append_mid (pat pre post : Str) :
    containsSub pat (pre ++ pat ++ post) = true := by
  induction pre with
  | nil =>
    cases pat with
    | nil => simpa using containsSub_nil post
    | cons a as =>
      simp only [List.nil_append]
      rw [containsSub]
      rw [show (a :: as) ++ post = a :: (as ++ post) from rfl]
      rw [breakSub]
      rw [show a :: (as ++ post) = (a :: as) ++ post from rfl]
      rw [isPrefixOf_append_self]
      rfl
  | cons c pre' ih =>
    simp only [List.cons_append]
    rw [containsSub, breakSub]
    by_cases hp : pat.isPrefixOf (c :: (pre' ++ pat ++ post)) = true
    · rw [if_pos hp]
      rfl
    · rw [if_neg hp]
      simp only [containsSub] at ih
      obtain ⟨⟨p, q⟩, hx⟩ := Option.isSome_iff_exists.mp ih
      rw [hx]
      rfl

theorem mem_deployServices_trace (cfg : Config) (env : Env) (image : Str) (c : Cmd) :
    c ∈ (deployServicesModel cfg env image).1 ↔
      ∃ s ∈ cfg.services, c ∈ (deployServiceModel cfg env s image).1 := by
  simp [deployServicesModel, List.mem_flatten]

theorem deployServices_result (cfg : Config) (env : Env) (image : Str) :
    (deployServicesModel cfg env image).2 =
      (if (cfg.services.filterMap
            (fun s => (deployServiceModel cfg env s image).2)).isEmpty
       then none
       else some (List.intercalate "\n".data
         (cfg.services.filterMap
           (fun s => (deployServiceModel cfg env s image).2)))) := by
  simp only [deployServicesModel, List.filterMap_map]
  rfl

theorem deleteImagesLoop_shape (env : Env) (repo : Str) (ts : List Tag) {c : Cmd}
    (hc : c ∈ (deleteImagesLoop env repo ts).1) :
    ∃ t ∈ ts, t.digest.isEmpty = false
      ∧ c = Cmd.deleteImage (imgRef repo t) := by
  induction ts with
  | nil => simp [deleteImagesLoop] at hc
  | cons t rest ih =>
    cases hd : t.digest.isEmpty with
    | true =>
      simp [deleteImagesLoop, hd] at hc
      obtain ⟨t', ht', h1, h2⟩ := ih hc
      exact ⟨t', by simp [ht'], h1, h2⟩
    | false =>
      cases he : env.deleteImageRes (imgRef repo t) with
      | some e =>
        simp [deleteImagesLoop, hd, he] at hc
        exact ⟨t, by simp, hd, hc⟩
      | none =>
        simp [deleteImagesLoop, hd, he] at hc
        rcases hc with hc | hc
        · exact ⟨t, by simp, hd, hc⟩
        · obtain ⟨t', ht', h1, h2⟩ := ih hc
          exact ⟨t', by simp [ht'], h1, h2⟩

theorem deleteImagesLoop_ok (env : Env) (repo : Str) (ts : List Tag)
    (h : (deleteImagesLoop env repo ts).2 = none) :
    (deleteImagesLoop env repo ts).1 = ts.filterMap (imgDeleteCmd repo) := by
  induction ts with
  | nil => rfl
  | cons t rest ih =>
    cases hd : t.digest.isEmpty with
    | true =>
      simp [deleteImagesLoop, List.filterMap_cons, imgDeleteCmd, hd] at h ⊢
      exact ih h
    | false =>
      cases he : env.deleteImageRes (imgRef repo t) with
      | some e => simp [deleteImagesLoop, hd, he] at h
      | none =>
        simp [deleteImagesLoop, List.filterMap_cons, imgDeleteCmd, hd, he] at h ⊢
        exact ih h

theorem deleteImagesLoop_all_ok (env : Env) (repo : Str) (ts : List Tag)
    (h : ∀ t ∈ ts, t.digest.isEmpty = false →
      env.deleteImageRes (imgRef repo t) = none) :
    (deleteImagesLoop env repo ts).2 = none := by
  induction ts with
  | nil => rfl
  | cons t rest ih =>
    have hrest := ih (fun u hu hd => h u (by simp [hu]) hd)
    cases hd : t.digest.isEmpty with
    | true => simpa [deleteImagesLoop, hd] using hrest
    | false =>
      have hok := h t (by simp) hd
      simpa [deleteImagesLoop, hd, hok] using hrest

theorem deleteImagesLoop_abort (env : Env) (repo : Str) (pre : List Tag) (t : Tag)
    (post : List Tag) (e : Str)
    (hpre : ∀ u ∈ pre, u.digest.isEmpty = false →
      env.deleteImageRes (imgRef repo u) = none)
    (ht : t.digest.isEmpty = false)
    (he : env.deleteImageRes (imgRef repo t) = some e) :
    deleteImagesLoop env repo (pre ++ t :: post)
      = (pre.filterMap (imgDeleteCmd repo) ++ [Cmd.deleteImage (imgRef repo t)],
         some ("delete image ".data ++ imgRef repo t ++ ": ".data ++ e)) := by
  induction pre with
  | nil => simp [deleteImagesLoop, ht, he]
  | cons u pre' ih =>
    have hrest := ih (fun v hv => hpre v (by simp [hv]))
    cases hu : u.digest.isEmpty with
    | true =>
      simp [deleteImagesLoop, hu, imgDeleteCmd, List.filterMap_cons]
      simpa [Prod.ext_iff] using hrest
    | false =>
      have hok := hpre u (by simp) hu
      simp [deleteImagesLoop, hu, hok, imgDeleteCmd, List.filterMap_cons]
      simpa [Prod.ext_iff] using hrest

/-- C2: for every ordered list and every threshold the selected deletion
tail has length max 0 (len - k), equals the list with its first
min(k, len) entries removed in order, is empty when len is at most k, and
is exactly what the two use sites delete: the revision deletions of a
successful service task and the image deletions of a successful cleanup
pass are precisely this tail. -/
theorem C2_prune :
    (∀ (L : List Str) (k : Nat),
        ((pruneTail L k).length : Int) = max 0 ((L.length : Int) - (k : Int))
        ∧ pruneTail L k = L.drop (min k L.length)
        ∧ (L.length ≤ k → pruneTail L k = []))
  ∧ (∀ (T : List Tag) (k : Nat), pruneTail T k = T.drop (min k T.length))
  ∧ (∀ (cfg : Config) (env : Env) (service image : Str),
        (deployServiceModel cfg env service image).2 = none →
        deletedRevCmds (deployServiceModel cfg env service image).1
          = pruneTail (revSnapshot env service) cfg.keepRevs)
  ∧ (∀ (cfg : Config) (env : Env) (T : List Tag),
        env.listTagsRes = none → env.tagsParseRes = .ok T →
        (cleanupOldImagesModel cfg env).2 = none →
        deletedImageRefs (cleanupOldImagesModel cfg env).1
          = (pruneTail T cfg.keepImgs).filterMap
              (fun t => if t.digest.isEmpty then none
                        else some (imgRef (repoOf cfg) t))) := by
  have hdrop : ∀ {α : Type} (L : List α) (k : Nat),
      pruneTail L k = L.drop (min k L.length) := by
    intro α L k
    unfold pruneTail
    by_cases h : L.length ≤ k
    · rw [if_pos h, Nat.min_eq_right h, List.drop_length]
    · rw [if_neg h, Nat.min_eq_left (Nat.le_of_lt (Nat.lt_of_not_le h))]
  refine ⟨fun L k => ⟨?_, hdrop L k, fun h => ?_⟩, fun T k => hdrop T k, ?_, ?_⟩
  · unfold pruneTail
    by_cases h : L.length ≤ k
    · rw [if_pos h]
      simp only [List.length_nil]
      omega
    · rw [if_neg h]
      rw [List.length_drop]
      omega
  · unfold pruneTail
    rw [if_pos h]
  · intro cfg env service image h
    rw [deployService_ok_trace cfg env service image h]
    simp [deletedRevCmds, List.filterMap_map, Function.comp_def]
  · intro cfg env T hlt hparse h
    simp only [cleanupOldImagesModel, hlt, hparse] at h ⊢
    rw [deleteImagesLoop_ok env (repoOf cfg) _ h]
    simp only [deletedImageRefs, List.filterMap_cons]
    rw [List.filterMap_filterMap]
    congr 1
    funext t
    by_cases hd : t.digest.isEmpty <;> simp [imgDeleteCmd, hd]

theorem C2_prune_witness :
    pruneTail (["a".data] : List Str) 2 = []
    ∧ deletedRevCmds (deployServiceModel exCfg exEnvOk "api".data "I".data).1
        = pruneTail (revSnapshot exEnvOk "api".data) exCfg.keepRevs :=
  ⟨(C2_prune.1 ["a".data] 2).2.2 (by decide),
   C2_prune.2.2.1 exCfg exEnvOk "api".data "I".data (by rfl)⟩

/-- C3 fails as stated: with one service api whose revision deletion
fails, the task's error line is tagged with the revision name r1 and does
not contain the service name api. -/
theorem C3_counterexample :
    ¬ claimC3At exCfg exEnvRevDeleteFail "img".data
    ∧ (deployServicesModel exCfg exEnvRevDeleteFail "img".data).2
        = some "delete revision r1: boom".data := by
  constructor
  · intro h
    have hm := h ("api".data) (by simp [exCfg])
      ("delete revision r1: boom".data) (by rfl)
    exact absurd hm (by decide)
  · rfl

/-- C3 (amended): the orchestrator waits for every per-service task; the
deploy step succeeds iff no task contributed an error, and otherwise fails
with the newline-join of one error message per failing service (in
collection order); a message from a revision-listing, deploy, or
traffic-migration failure contains the failing service's name, while a
revision-deletion failure's message contains the failed revision's name
instead. -/
theorem C3_amended :
    (∀ (cfg : Config) (env : Env) (image : Str),
        ((deployServicesModel cfg env image).2 = none ↔
          cfg.services.filterMap
            (fun s => (deployServiceModel cfg env s image).2) = []))
  ∧ (∀ (cfg : Config) (env : Env) (image : Str),
        cfg.services.filterMap
            (fun s => (deployServiceModel cfg env s image).2) ≠ [] →
        (deployServicesModel cfg env image).2
          = some (List.intercalate "\n".data
              (cfg.services.filterMap
                (fun s => (deployServiceModel cfg env s image).2))))
  ∧ (∀ (cfg : Config) (env : Env) (image s e : Str), s ∈ cfg.services →
        (deployServiceModel cfg env s image).2 = some e →
        ((∃ u, e = "list revisions for ".data ++ s ++ ": ".data ++ u
            ∧ containsSub s e = true)
        ∨ (∃ u, e = "deploy service ".data ++ s ++ ": ".data ++ u
            ∧ containsSub s e = true)
        ∨ (∃ u, e = "update traffic for ".data ++ s ++ ": ".data ++ u
            ∧ containsSub s e = true)
        ∨ (∃ r ∈ pruneTail (revSnapshot env s) cfg.keepRevs, ∃ u,
            e = "delete revision ".data ++ r ++ ": ".data ++ u
            ∧ containsSub r e = true))) := by
  refine ⟨?_, ?_, ?_⟩
  · intro cfg env image
    rw [deployServices_result]
    by_cases h : (cfg.services.filterMap
        (fun s => (deployServiceModel cfg env s image).2)).isEmpty
    · rw [if_pos h]
      simp [List.isEmpty_iff.mp h]
    · rw [if_neg h]
      simp only [List.isEmpty_iff] at h
      simp [h]
  · intro cfg env image h
    rw [deployServices_result]
    rw [if_neg (by simpa [List.isEmpty_iff] using h)]
  · intro cfg env image s e _ h
    rcases deployService_err_shape cfg env s image e h with
      ⟨u, he⟩ | ⟨u, he⟩ | ⟨u, he⟩ | ⟨r, hr, u, he⟩
    · exact Or.inl ⟨u, he, by
        rw [he]
        simpa [List.append_assoc] using
          containsSub_append_mid s ("list revisions for ".data) (": ".data ++ u)⟩
    · exact Or.inr (Or.inl ⟨u, he, by
        rw [he]
        simpa [List.append_assoc] using
          containsSub_append_mid s ("deploy service ".data) (": ".data ++ u)⟩)
    · exact Or.inr (Or.inr (Or.inl ⟨u, he, by
        rw [he]
        simpa [List.append_assoc] using
          containsSub_append_mid s ("update traffic for ".data) (": ".data ++ u)⟩))
    · exact Or.inr (Or.inr (Or.inr ⟨r, hr, u, he, by
        rw [he]
        simpa [List.append_assoc] using
          containsSub_append_mid r ("delete revision ".data) (": ".data ++ u)⟩))

theorem C3_amended_witness :
    (deployServicesModel exCfg exEnvRevDeleteFail "img2".data).2
      = some (List.intercalate "\n".data
          (exCfg.services.filterMap
            (fun s => (deployServiceModel exCfg exEnvRevDeleteFail s "img2".data).2))) :=
  C3_amended.2.1 exCfg exEnvRevDeleteFail "img2".data (by decide)

/-- C4: a successful service task's command trace starts with the
revision listing, then the deploy, then the traffic migration, and ends
with exactly the deletions of the pre-deploy snapshot entries strictly
after index keepRevisions, in the snapshot's order: the snapshot is
captured before the deploy is issued and is the one pruned afterwards. -/
theorem C4_snapshot : ∀ (cfg : Config) (env : Env) (service image : Str),
    (deployServiceModel cfg env service image).2 = none →
    (deployServiceModel cfg env service image).1
      = Cmd.listRevisions service :: Cmd.deploy service image ::
        Cmd.updateTraffic service ::
        (pruneTail (revSnapshot env service) cfg.keepRevs).map Cmd.deleteRevision
    ∧ deletedRevCmds (deployServiceModel cfg env service image).1
        = pruneTail (revSnapshot env service) cfg.keepRevs := by
  intro cfg env service image h
  have ht := deployService_ok_trace cfg env service image h
  refine ⟨ht, ?_⟩
  rw [ht]
  simp [deletedRevCmds, List.filterMap_map, Function.comp_def]

theorem C4_snapshot_witness :
    (deployServiceModel exCfg exEnvOk "api".data "IMG".data).1
      = [Cmd.listRevisions "api".data, Cmd.deploy "api".data "IMG".data,
         Cmd.updateTraffic "api".data, Cmd.deleteRevision "r2".data,
         Cmd.deleteRevision "r1".data] :=
  ((C4_snapshot exCfg exEnvOk "api".data "IMG".data (by rfl)).1).trans (by decide)

theorem cleanup_trace_shape (cfg : Config) (env : Env) {c : Cmd}
    (hc : c ∈ (cleanupOldImagesModel cfg env).1) : c.isCleanup = true := by
  cases hl : env.listTagsRes with
  | some e =>
    simp [cleanupOldImagesModel, hl] at hc
    subst hc
    rfl
  | none =>
    cases hp : env.tagsParseRes with
    | error e =>
      simp [cleanupOldImagesModel, hl, hp] at hc
      subst hc
      rfl
    | ok tags =>
      simp [cleanupOldImagesModel, hl, hp] at hc
      rcases hc with hc | hc
      · subst hc
        rfl
      · obtain ⟨t, _, _, hct⟩ := deleteImagesLoop_shape env (repoOf cfg) _ hc
        subst hct
        rfl

theorem deployServices_no_cleanup (cfg : Config) (env : Env) (image : Str)
    {c : Cmd} (hc : c ∈ (deployServicesModel cfg env image).1) :
    c.isCleanup = false := by
  obtain ⟨s, _, hcs⟩ := (mem_deployServices_trace cfg env image c).mp hc
  rcases deployService_trace_shape cfg env s image hcs with h | h | h | ⟨r, _, h⟩ <;>
    subst h <;> rfl

theorem runModel_trace_mem (cfg : Config) (env : Env) {c : Cmd}
    (hc : c ∈ (runModel cfg env).1) :
    c = Cmd.buildTS ∨ c = Cmd.dockerBuild (imageTagOf cfg)
    ∨ c = Cmd.dockerPush (imageTagOf cfg)
    ∨ (∃ d, parseDigest env.pushOutput = .ok d
        ∧ c ∈ (deployServicesModel cfg env (fullImageOf cfg d)).1)
    ∨ (cfg.beta = false ∧ c ∈ (cleanupOldImagesModel cfg env).1) := by
  cases hb : env.buildRes with
  | some e =>
    simp [runModel, hb] at hc
    exact Or.inl hc
  | none =>
    cases hdb : env.dockerBuildRes with
    | some e =>
      simp [runModel, hb, hdb] at hc
      rcases hc with hc | hc
      · exact Or.inl hc
      · exact Or.inr (Or.inl hc)
    | none =>
      cases hp : env.pushRes with
      | some e =>
        simp [runModel, hb, hdb, hp] at hc
        rcases hc with hc | hc | hc
        · exact Or.inl hc
        · exact Or.inr (Or.inl hc)
        · exact Or.inr (Or.inr (Or.inl hc))
      | none =>
        cases hd : parseDigest env.pushOutput with
        | error e =>
          simp [runModel, hb, hdb, hp, hd] at hc
          rcases hc with hc | hc | hc
          · exact Or.inl hc
          · exact Or.inr (Or.inl hc)
          · exact Or.inr (Or.inr (Or.inl hc))
        | ok d =>
          cases hds : (deployServicesModel cfg env (fullImageOf cfg d)).2 with
          | some e =>
            simp [runModel, hb, hdb, hp, hd, hds] at hc
            rcases hc with hc | hc | hc | hc
            · exact Or.inl hc
            · exact Or.inr (Or.inl hc)
            · exact Or.inr (Or.inr (Or.inl hc))
            · exact Or.inr (Or.inr (Or.inr (Or.inl ⟨d, rfl, hc⟩)))
          | none =>
            cases hbeta : cfg.beta with
            | true =>
              simp [runModel, hb, hdb, hp, hd, hds, hbeta] at hc
              rcases hc with hc | hc | hc | hc
              · exact Or.inl hc
              · exact Or.inr (Or.inl hc)
              · exact Or.inr (Or.inr (Or.inl hc))
              · exact Or.inr (Or.inr (Or.inr (Or.inl ⟨d, rfl, hc⟩)))
            | false =>
              simp [runModel, hb, hdb, hp, hd, hds, hbeta] at hc
              rcases hc with hc | hc | hc | hc | hc
              · exact Or.inl hc
              · exact Or.inr (Or.inl hc)
              · exact Or.inr (Or.inr (Or.inl hc))
              · exact Or.inr (Or.inr (Or.inr (Or.inl ⟨d, rfl, hc⟩)))
              · exact Or.inr (Or.inr (Or.inr (Or.inr ⟨rfl, hc⟩)))

theorem run_deploy_ref (cfg : Config) (env : Env) (s img : Str)
    (hc : Cmd.deploy s img ∈ (runModel cfg env).1) :
    ∃ d, parseDigest env.pushOutput = .ok d ∧ img = fullImageOf cfg d := by
  rcases runModel_trace_mem cfg env hc with h | h | h | ⟨d, hd, hmem⟩ | ⟨_, hmem⟩
  · exact Cmd.noConfusion h
  · exact Cmd.noConfusion h
  · exact Cmd.noConfusion h
  · obtain ⟨s', _, hcs⟩ := (mem_deployServices_trace cfg env _ _).mp hmem
    rcases deployService_trace_shape cfg env s' _ hcs with h | h | h | ⟨r, _, h⟩
    · exact Cmd.noConfusion h
    · injection h with h1 h2
      exact ⟨d, hd, h2⟩
    · exact Cmd.noConfusion h
    · exact Cmd.noConfusion h
  · have := cleanup_trace_shape cfg env hmem
    simp [Cmd.isCleanup] at this

/-- C5: a beta run never issues an image-cleanup command; on a non-beta
run the cleanup pass skips the first keepImages records, skips every
remaining record with an empty digest without error, deletes repo@digest
for the rest in order, stops the pass at the first deletion failure, and
that failure's error becomes the run's result once the fan-out join has
succeeded. -/
theorem C5_cleanup :
    (∀ (cfg : Config) (env : Env), cfg.beta = true →
        ∀ c ∈ (runModel cfg env).1, c.isCleanup = false)
  ∧ (∀ (cfg : Config) (env : Env) (T : List Tag),
        env.listTagsRes = none → env.tagsParseRes = .ok T →
        (∀ t ∈ pruneTail T cfg.keepImgs, t.digest.isEmpty = false →
          env.deleteImageRes (imgRef (repoOf cfg) t) = none) →
        cleanupOldImagesModel cfg env
          = (Cmd.listTags (repoOf cfg) ::
              (pruneTail T cfg.keepImgs).filterMap (imgDeleteCmd (repoOf cfg)),
             none))
  ∧ (∀ (cfg : Config) (env : Env) (T pre : List Tag) (t : Tag)
        (post : List Tag) (e : Str),
        env.listTagsRes = none → env.tagsParseRes = .ok T →
        pruneTail T cfg.keepImgs = pre ++ t :: post →
        (∀ u ∈ pre, u.digest.isEmpty = false →
          env.deleteImageRes (imgRef (repoOf cfg) u) = none) →
        t.digest.isEmpty = false →
        env.deleteImageRes (imgRef (repoOf cfg) t) = some e →
        cleanupOldImagesModel cfg env
          = (Cmd.listTags (repoOf cfg) ::
              (pre.filterMap (imgDeleteCmd (repoOf cfg))
                ++ [Cmd.deleteImage (imgRef (repoOf cfg) t)]),
             some ("delete image ".data ++ imgRef (repoOf cfg) t
               ++ ": ".data ++ e)))
  ∧ (∀ (cfg : Config) (env : Env) (d : Str), cfg.beta = false →
        env.buildRes = none → env.dockerBuildRes = none → env.pushRes = none →
        parseDigest env.pushOutput = .ok d →
        (deployServicesModel cfg env (fullImageOf cfg d)).2 = none →
        (runModel cfg env).2 = (cleanupOldImagesModel cfg env).2) := by
  refine ⟨?_, ?_, ?_, ?_⟩
  · intro cfg env hbeta c hc
    rcases runModel_trace_mem cfg env hc with h | h | h | ⟨d, _, hmem⟩ | ⟨hnb, _⟩
    · subst h; rfl
    · subst h; rfl
    · subst h; rfl
    · exact deployServices_no_cleanup cfg env _ hmem
    · rw [hbeta] at hnb; exact Bool.noConfusion hnb
  · intro cfg env T hl hparse hdel
    have h2 := deleteImagesLoop_all_ok env (repoOf cfg) _ hdel
    have h1 := deleteImagesLoop_ok env (repoOf cfg) _ h2
    simp only [cleanupOldImagesModel, hl, hparse]
    rw [h1, h2]
  · intro cfg env T pre t post e hl hparse htail hpre ht he
    simp only [cleanupOldImagesModel, hl, hparse, htail]
    rw [deleteImagesLoop_abort env (repoOf cfg) pre t post e hpre ht he]
  · intro cfg env d hbeta hb hdb hp hd hds
    simp [runModel, hb, hdb, hp, hd, hds, hbeta]

theorem C5_cleanup_witness :
    (∀ c ∈ (runModel exCfgBeta exEnvOk).1, c.isCleanup = false)
    ∧ cleanupOldImagesModel exCfg exEnvImgDeleteFail
        = ([Cmd.listTags "asia.gcr.io/proj/app".data,
            Cmd.deleteImage "asia.gcr.io/proj/app@sha256:d2".data],
           some "delete image asia.gcr.io/proj/app@sha256:d2: boom".data) :=
  ⟨C5_cleanup.1 exCfgBeta exEnvOk rfl,
   (C5_cleanup.2.2.1 exCfg exEnvImgDeleteFail
      [⟨"sha256:d1".data⟩, ⟨"sha256:d2".data⟩, ⟨[]⟩]
      [] ⟨"sha256:d2".data⟩ [⟨[]⟩] "boom".data
      rfl rfl (by decide) (by intro u hu; exact absurd hu (by simp))
      rfl rfl).trans (by decide)⟩

/-- C6: the containerize stage tags the image as registryHost/project/
image on a release run and with the :dev suffix on a beta run (and such a
docker build is issued whenever the project build succeeded), and every
deploy command carries the immutable repo@digest reference built from the
digest extracted from the push transcript — never the mutable tag. -/
theorem C6_immutable_ref :
    (∀ (cfg : Config) (env : Env) (t : Str),
        Cmd.dockerBuild t ∈ (runModel cfg env).1 →
        t = (if cfg.beta then repoOf cfg ++ ":dev".data else repoOf cfg))
  ∧ (∀ (cfg : Config) (env : Env), env.buildRes = none →
        Cmd.dockerBuild
            (if cfg.beta then repoOf cfg ++ ":dev".data else repoOf cfg)
          ∈ (runModel cfg env).1)
  ∧ (∀ (cfg : Config) (env : Env) (s img : Str),
        Cmd.deploy s img ∈ (runModel cfg env).1 →
        ∃ d, parseDigest env.pushOutput = .ok d ∧ img = fullImageOf cfg d)
  ∧ (∀ (cfg : Config) (env : Env) (s img : Str),
        Cmd.deploy s img ∈ (runModel cfg env).1 →
        img ≠ (if cfg.beta then repoOf cfg ++ ":dev".data else repoOf cfg)) := by
  refine ⟨?_, ?_, ?_, ?_⟩
  · intro cfg env t hc
    rcases runModel_trace_mem cfg env hc with h | h | h | ⟨d, _, hmem⟩ | ⟨_, hmem⟩
    · exact Cmd.noConfusion h
    · injection h with h1
    · exact Cmd.noConfusion h
    · have := deployServices_no_cleanup cfg env _ hmem
      obtain ⟨s', _, hcs⟩ := (mem_deployServices_trace cfg env _ _).mp hmem
      rcases deployService_trace_shape cfg env s' _ hcs with h | h | h | ⟨r, _, h⟩ <;>
        exact Cmd.noConfusion h
    · have := cleanup_trace_shape cfg env hmem
      simp [Cmd.isCleanup] at this
  · intro cfg env hb
    have htag : (if cfg.beta then repoOf cfg ++ ":dev".data else repoOf cfg)
        = imageTagOf cfg := rfl
    rw [htag]
    cases hdb : env.dockerBuildRes with
    | some e => simp [runModel, hb, hdb]
    | none =>
      cases hp : env.pushRes with
      | some e => simp [runModel, hb, hdb, hp]
      | none =>
        cases hd : parseDigest env.pushOutput with
        | error e => simp [runModel, hb, hdb, hp, hd]
        | ok d =>
          cases hds : (deployServicesModel cfg env (fullImageOf cfg d)).2 with
          | some e => simp [runModel, hb, hdb, hp, hd, hds]
          | none =>
            cases hbeta : cfg.beta with
            | true => simp [runModel, hb, hdb, hp, hd, hds, hbeta]
            | false => simp [runModel, hb, hdb, hp, hd, hds, hbeta]
  · intro cfg env s img hc
    exact run_deploy_ref cfg env s img hc
  · intro cfg env s img hc
    obtain ⟨d, _, himg⟩ := run_deploy_ref cfg env s img hc
    subst himg
    intro heq
    cases hbeta : cfg.beta with
    | false =>
      rw [hbeta] at heq
      simp only [Bool.false_eq_true, if_false] at heq
      have hlen := congrArg List.length heq
      have hone : ("@".data : Str).length = 1 := rfl
      simp only [fullImageOf, List.length_append, hone] at hlen
      omega
    | true =>
      rw [hbeta] at heq
      simp only [if_true] at heq
      simp only [fullImageOf] at heq
      rw [List.append_assoc] at heq
      have h2 := List.append_cancel_left heq
      simp at h2

theorem C6_immutable_ref_witness :
    ∃ d, parseDigest exEnvOk.pushOutput = .ok d
      ∧ "asia.gcr.io/proj/app@sha256:abc123".data = fullImageOf exCfg d :=
  C6_immutable_ref.2.2.1 exCfg exEnvOk "api".data
    "asia.gcr.io/proj/app@sha256:abc123".data (by decide)

/-- C7: whenever the project build exits non-zero, the run stops with the
wrapped build error and its whole command trace is the single build
invocation — no container build, push, deploy, traffic migration, or
cleanup command is ever issued. -/
theorem C7_build_abort : ∀ (cfg : Config) (env : Env) (e : Str),
    env.buildRes = some e →
    runModel cfg env = ([Cmd.buildTS], some ("build project: ".data ++ e)) := by
  intro cfg env e h
  simp [runModel, h]

theorem C7_build_abort_witness :
    runModel exCfg exEnvBuildFail
      = ([Cmd.buildTS], some ("build project: ".data ++ "boom".data)) :=
  C7_build_abort exCfg exEnvBuildFail "boom".data rfl

/-- C8: build-tool auto-detection is total (it never returns an error)
and probes the markers in the fixed priority order pnpm-lock.yaml,
yarn.lock, package-lock.json, go.mod, Cargo.toml, returning the first
match; with no marker matched it falls back to the default pnpm tool,
both when only the generic package.json manifest is present and when
nothing matches; in particular a pnpm lockfile next to package.json
resolves to pnpm. -/
theorem C8_detect :
    (∀ ws : Workspace, ∃ l, detectLanguage ws = .ok l)
  ∧ (∀ ws : Workspace, ws.has "pnpm-lock.yaml".data = true →
        detectLanguage ws = .ok .pnpm)
  ∧ (∀ ws : Workspace, ws.has "pnpm-lock.yaml".data = false →
        ws.has "yarn.lock".data = true → detectLanguage ws = .ok .yarn)
  ∧ (∀ ws : Workspace, ws.has "pnpm-lock.yaml".data = false →
        ws.has "yarn.lock".data = false →
        ws.has "package-lock.json".data = true →
        detectLanguage ws = .ok .npm)
  ∧ (∀ ws : Workspace, ws.has "pnpm-lock.yaml".data = false →
        ws.has "yarn.lock".data = false →
        ws.has "package-lock.json".data = false →
        ws.has "go.mod".data = true → detectLanguage ws = .ok .go)
  ∧ (∀ ws : Workspace, ws.has "pnpm-lock.yaml".data = false →
        ws.has "yarn.lock".data = false →
        ws.has "package-lock.json".data = false →
        ws.has "go.mod".data = false →
        ws.has "Cargo.toml".data = true → detectLanguage ws = .ok .rust)
  ∧ (∀ ws : Workspace, ws.has "pnpm-lock.yaml".data = false →
        ws.has "yarn.lock".data = false →
        ws.has "package-lock.json".data = false →
        ws.has "go.mod".data = false →
        ws.has "Cargo.toml".data = false → detectLanguage ws = .ok .pnpm)
  ∧ (∀ ws : Workspace, ws.has "pnpm-lock.yaml".data = true →
        ws.has "package.json".data = true → detectLanguage ws = .ok .pnpm) := by
  refine ⟨?_, ?_, ?_, ?_, ?_, ?_, ?_, ?_⟩
  · intro ws
    unfold detectLanguage
    split_ifs <;> exact ⟨_, rfl⟩
  · intro ws h1
    simp [detectLanguage, h1]
  · intro ws h1 h2
    simp [detectLanguage, h1, h2]
  · intro ws h1 h2 h3
    simp [detectLanguage, h1, h2, h3]
  · intro ws h1 h2 h3 h4
    simp [detectLanguage, h1, h2, h3, h4]
  · intro ws h1 h2 h3 h4 h5
    simp [detectLanguage, h1, h2, h3, h4, h5]
  · intro ws h1 h2 h3 h4 h5
    simp [detectLanguage, h1, h2, h3, h4, h5, ite_self]
  · intro ws h1 _
    simp [detectLanguage, h1]

theorem C8_detect_witness :
    detectLanguage exWorkspaceBoth = .ok .pnpm ∧ detectLanguage exWorkspace = .ok .pnpm :=
  ⟨C8_detect.2.2.2.2.2.2.2 exWorkspaceBoth rfl rfl,
   C8_detect.2.2.2.2.2.2.1 exWorkspace rfl rfl rfl rfl rfl⟩

/-- C9 fails as stated: the whitespace-only explicit choice " " is
non-empty, and its normalization (the empty string) is outside the alias
table, yet the resolver does not fail — it normalizes first, sees the
empty string, and falls back to workspace auto-detection, here yielding
pnpm. -/
theorem C9_counterexample :
    ¬ claimC9At exWorkspace (" ".data)
    ∧ determineLanguage exWorkspace (" ".data) = .ok .pnpm := by
  constructor
  · intro h
    obtain ⟨m, hm⟩ := h (by decide) (by decide)
    have hok : determineLanguage exWorkspace (" ".data) = .ok .pnpm := rfl
    rw [hok] at hm
    exact Except.noConfusion hm
  · rfl

/-- C9 (amended): the resolver's result depends only on the normalization
(lowercased, whitespace-trimmed) of the explicit choice; a choice whose
normalization is empty — including a whitespace-only choice — falls back
to auto-detection; every choice whose normalization is in the fixed alias
table resolves to a tool, with the legacy node-style aliases resolving to
the same tool as the canonical npm choice; and every choice whose
normalization is non-empty and outside the table fails with the
unsupported-build-tool error. -/
theorem C9_amended :
    (∀ (ws : Workspace) (r1 r2 : Str),
        trimSpace (toLowerStr r1) = trimSpace (toLowerStr r2) →
        determineLanguage ws r1 = determineLanguage ws r2)
  ∧ (∀ (ws : Workspace) (requested : Str),
        trimSpace (toLowerStr requested) = [] →
        determineLanguage ws requested = detectLanguage ws)
  ∧ (∀ (ws : Workspace) (requested : Str),
        trimSpace (toLowerStr requested) ∈ aliasKeys →
        ∃ l, determineLanguage ws requested = .ok l)
  ∧ (∀ (ws : Workspace) (requested : Str),
        trimSpace (toLowerStr requested) ≠ [] →
        trimSpace (toLowerStr requested) ∉ aliasKeys →
        determineLanguage ws requested
          = .error ("unsupported --lang value \"".data
              ++ trimSpace (toLowerStr requested) ++ "\"".data))
  ∧ (∀ ws : Workspace, determineLanguage ws "node".data = .ok .npm
        ∧ determineLanguage ws "npm".data = .ok .npm
        ∧ determineLanguage ws " NPM ".data = .ok .npm) := by
  refine ⟨?_, ?_, ?_, ?_, ?_⟩
  · intro ws r1 r2 h
    simp only [determineLanguage]
    rw [h]
  · intro ws requested h
    simp [determineLanguage, h]
  · intro ws requested h
    simp only [aliasKeys, List.mem_cons, List.not_mem_nil, or_false] at h
    rcases h with h | h | h | h | h | h | h | h | h | h | h | h
    · exact ⟨Language.npm, by simp [determineLanguage, h]⟩
    · exact ⟨Language.npm, by simp [determineLanguage, h]⟩
    · exact ⟨Language.npm, by simp [determineLanguage, h]⟩
    · exact ⟨Language.npm, by simp [determineLanguage, h]⟩
    · exact ⟨Language.npm, by simp [determineLanguage, h]⟩
    · exact ⟨Language.npm, by simp [determineLanguage, h]⟩
    · exact ⟨Language.pnpm, by simp [determineLanguage, h]⟩
    · exact ⟨Language.yarn, by simp [determineLanguage, h]⟩
    · exact ⟨Language.go, by simp [determineLanguage, h]⟩
    · exact ⟨Language.go, by simp [determineLanguage, h]⟩
    · exact ⟨Language.rust, by simp [determineLanguage, h]⟩
    · exact ⟨Language.rust, by simp [determineLanguage, h]⟩
  · intro ws requested hne hmem
    simp only [aliasKeys, List.mem_cons, List.not_mem_nil, or_false, not_or] at hmem
    obtain ⟨h1, h2, h3, h4, h5, h6, h7, h8, h9, h10, h11, h12⟩ := hmem
    simp [determineLanguage, List.isEmpty_iff, hne,
      h1, h2, h3, h4, h5, h6, h7, h8, h9, h10, h11, h12]
  · intro ws
    exact ⟨rfl, rfl, rfl⟩

theorem C9_amended_witness :
    determineLanguage exWorkspace "weird".data
      = .error ("unsupported --lang value \"".data
          ++ trimSpace (toLowerStr "weird".data) ++ "\"".data) :=
  C9_amended.2.2.2.1 exWorkspace "weird".data (by decide) (by decide)

theorem keepNonEmptyTrimmed_eq (l : List Str) :
    keepNonEmptyTrimmed l = (l.map trimSpace).filter (fun t => !t.isEmpty) := by
  induction l with
  | nil => rfl
  | cons p ps ih =>
    cases h : (trimSpace p).isEmpty with
    | true => simp [keepNonEmptyTrimmed, h, ih]
    | false => simp [keepNonEmptyTrimmed, h, ih]

/-- C10: the parsed service list is exactly the semicolon-separated
segments of the raw --svc value, trimmed, with empty segments dropped and
order preserved — so it never contains the empty string — and parseConfig
rejects the run when this list is empty. -/
theorem C10_split_services :
    (∀ raw : Str, splitServices raw
        = ((splitChar ';' raw).map trimSpace).filter (fun t => !t.isEmpty))
  ∧ (∀ raw : Str, [] ∉ splitServices raw)
  ∧ (∀ f : RawFlags, splitServices f.svc = [] →
        ∃ m, parseConfigModel f = .error m) := by
  refine ⟨fun raw => keepNonEmptyTrimmed_eq _, ?_, ?_⟩
  · intro raw hmem
    rw [splitServices, keepNonEmptyTrimmed_eq] at hmem
    have := (List.mem_filter.mp hmem).2
    simp at this
  · intro f h
    cases h1 : f.image.isEmpty with
    | true =>
      exact ⟨"--image is required".data, by simp [parseConfigModel, h1]⟩
    | false =>
      cases h2 : f.svc.isEmpty with
      | true =>
        exact ⟨"--svc is required".data, by simp [parseConfigModel, h1, h2]⟩
      | false =>
        exact ⟨"no services provided via --svc".data,
          by simp [parseConfigModel, h1, h2, h]⟩

theorem C10_split_services_witness :
    ∃ m, parseConfigModel exFlagsBlankSvc = .error m :=
  C10_split_services.2.2 exFlagsBlankSvc (by decide)

end Crunchy
